import Mathlib

/-!
Verification of the DocTree-NLP document subsystem: tree construction
(`notionlp/structure.py`), lazy loading (`doctree_nlp/lazy_document.py`) and
windowing (`doctree_nlp/windowing.py`), shallowly embedded in Lean.

Python object aliasing is modelled by giving every tree node a unique creation
label (creation order); the `current_level` dictionary stores labels instead of
object references, and "append child to the node referenced at depth p" becomes
a functional update at the unique node carrying that label.
-/

namespace DocTreeNLP

/-- `Block` from `notionlp/structure.py` (pydantic model). -/
structure Block where
  id : String
  type : String
  content : String
  has_children : Bool := false
  indent_level : Nat := 0
deriving Repr, DecidableEq

/-- `Node` from `notionlp/structure.py`, with an extra creation label that
models Python object identity (creation order; the sentinel root is 0). -/
inductive PNode where
  | mk (label : Nat) (block : Block) (children : List PNode)

def PNode.label : PNode → Nat
  | .mk l _ _ => l

def PNode.block : PNode → Block
  | .mk _ b _ => b

def PNode.children : PNode → List PNode
  | .mk _ _ cs => cs

/-- The block of the sentinel root node created by `DocTree.build_tree`. -/
def rootBlock : Block :=
  { id := "root", type := "root", content := "", has_children := true }

/-- The `hierarchy_levels` dict of `DocTree._get_block_depth`. -/
def hierarchyLevels : List (String × Nat) :=
  [("heading_1", 1), ("heading_2", 2), ("heading_3", 3),
   ("paragraph", 4), ("bulleted_list_item", 4), ("numbered_list_item", 4),
   ("to_do", 4)]

/-- `DocTree._get_block_depth`: dict lookup with default 4. -/
def getBlockDepth (b : Block) : Nat :=
  (hierarchyLevels.lookup b.type).getD 4

/-- The scan `parent_depth = depth-1; while parent_depth >= 0 and parent_depth
not in current_level: parent_depth -= 1` of `DocTree.build_tree`, started at
the argument and returning the node label found (none when the scan exhausts
all depths down to 0 without a hit). -/
def findParentAt (lvl : Nat → Option Nat) : Nat → Option Nat
  | 0 => lvl 0
  | p + 1 =>
    match lvl (p + 1) with
    | some i => some i
    | none => findParentAt lvl p

mutual
/-- `current_level[p].children.append(node)`: append `c` to the children of the
(unique) node labelled `t`. -/
def attachUnder (t : Nat) (c : PNode) : PNode → PNode
  | .mk l b cs =>
    if l = t then .mk l b (cs ++ [c])
    else .mk l b (attachUnderList t c cs)

def attachUnderList (t : Nat) (c : PNode) : List PNode → List PNode
  | [] => []
  | n :: ns => attachUnder t c n :: attachUnderList t c ns
end

mutual
/-- Pre-order flattening of a tree into the list of blocks it carries. -/
def flattenNode : PNode → List Block
  | .mk _ b cs => b :: flattenList cs

def flattenList : List PNode → List Block
  | [] => []
  | n :: ns => flattenNode n ++ flattenList ns
end

mutual
/-- Number of nodes in the tree carrying label `t` (models the uniqueness of
Python object identity). -/
def countLabel (t : Nat) : PNode → Nat
  | .mk l _ cs => (if l = t then 1 else 0) + countLabelList t cs

def countLabelList (t : Nat) : List PNode → Nat
  | [] => 0
  | n :: ns => countLabel t n + countLabelList t ns
end

/-- The loop state of `DocTree.build_tree`: the tree grown from the sentinel
root, the `current_level` dict (depth to node label), `current_depth`, and the
next fresh label. -/
structure BuildSt where
  root : PNode
  level : Nat → Option Nat
  depth : Nat
  next : Nat

/-- State before the loop: `current_level = {0: root}`, `current_depth = 0`. -/
def initBuildSt : BuildSt :=
  { root := .mk 0 rootBlock []
    level := fun k => if k = 0 then some 0 else none
    depth := 0
    next := 1 }

/-- One iteration of the loop of `DocTree.build_tree`. -/
def stepBlock (st : BuildSt) (b : Block) : BuildSt :=
  let d := getBlockDepth b
  let node : PNode := .mk st.next b []
  let root :=
    if d ≤ st.depth then
      match findParentAt st.level (d - 1) with
      | some p => attachUnder p node st.root
      | none => st.root
    else
      match st.level st.depth with
      | some p => attachUnder p node st.root
      | none => st.root
  { root := root
    level := fun k => if k = d then some st.next else st.level k
    depth := d
    next := st.next + 1 }

/-- `DocTree.build_tree(blocks)`: fold the loop body over the blocks and return
the root node. -/
def buildTree (blocks : List Block) : PNode :=
  (blocks.foldl stepBlock initBuildSt).root

theorem flattenList_append (as bs : List PNode) :
    flattenList (as ++ bs) = flattenList as ++ flattenList bs := by
  induction as with
  | nil => simp [flattenList]
  | cons n ns ih => simp [flattenList, ih]

theorem countLabelList_append (t : Nat) (as bs : List PNode) :
    countLabelList t (as ++ bs) = countLabelList t as + countLabelList t bs := by
  induction as with
  | nil => simp [countLabelList]
  | cons n ns ih => simp [countLabelList, ih]; omega

mutual
theorem attachUnder_of_count_zero (t : Nat) (c : PNode) :
    ∀ n : PNode, countLabel t n = 0 → attachUnder t c n = n
  | .mk l b cs, h => by
    rw [countLabel] at h
    rw [attachUnder]
    have hl : ¬ l = t := by intro he; simp [he] at h
    simp only [hl, if_false]
    rw [attachUnderList_of_count_zero t c cs (by omega)]

theorem attachUnderList_of_count_zero (t : Nat) (c : PNode) :
    ∀ ns : List PNode, countLabelList t ns = 0 → attachUnderList t c ns = ns
  | [], _ => by rw [attachUnderList]
  | n :: ns, h => by
    rw [countLabelList] at h
    rw [attachUnderList]
    rw [attachUnder_of_count_zero t c n (by omega),
        attachUnderList_of_count_zero t c ns (by omega)]
end

mutual
theorem flatten_attachUnder_perm (t : Nat) (c : PNode) :
    ∀ n : PNode, countLabel t n = 1 →
      (flattenNode (attachUnder t c n)).Perm (flattenNode n ++ flattenNode c)
  | .mk l b cs, h => by
    rw [countLabel] at h
    rw [attachUnder]
    by_cases hl : l = t
    · simp only [hl, if_true]
      have hcs : countLabelList t cs = 0 := by simp [hl] at h; omega
      simp only [flattenNode, flattenList_append, flattenList]
      simp
    · simp only [hl, if_false]
      have hcs : countLabelList t cs = 1 := by simp [hl] at h; omega
      simp only [flattenNode, List.cons_append]
      exact (flattenList_attachUnderList_perm t c cs hcs).cons b

theorem flattenList_attachUnderList_perm (t : Nat) (c : PNode) :
    ∀ ns : List PNode, countLabelList t ns = 1 →
      (flattenList (attachUnderList t c ns)).Perm (flattenList ns ++ flattenNode c)
  | n :: ns, h => by
    rw [countLabelList] at h
    rw [attachUnderList]
    by_cases hn : countLabel t n = 1
    · have hns : countLabelList t ns = 0 := by omega
      rw [attachUnderList_of_count_zero t c ns hns]
      simp only [flattenList]
      refine ((flatten_attachUnder_perm t c n hn).append_right _).trans ?_
      simp only [List.append_assoc]
      exact List.Perm.append_left _ List.perm_append_comm
    · have hn0 : countLabel t n = 0 := by omega
      have hns : countLabelList t ns = 1 := by omega
      rw [attachUnder_of_count_zero t c n hn0]
      simp only [flattenList, List.append_assoc]
      exact List.Perm.append_left _ (flattenList_attachUnderList_perm t c ns hns)
end

mutual
theorem countLabel_attachUnder (t q : Nat) (c : PNode) :
    ∀ n : PNode, countLabel t n = 1 →
      countLabel q (attachUnder t c n) = countLabel q n + countLabel q c
  | .mk l b cs, h => by
    rw [countLabel] at h
    rw [attachUnder]
    by_cases hl : l = t
    · simp only [hl, if_true]
      rw [countLabel, countLabelList_append, countLabel]
      rw [countLabelList]
      rw [countLabelList]
      omega
    · simp only [hl, if_false]
      have hcs : countLabelList t cs = 1 := by simp [hl] at h; omega
      rw [countLabel, countLabel,
          countLabelList_attachUnderList t q c cs hcs]
      omega

theorem countLabelList_attachUnderList (t q : Nat) (c : PNode) :
    ∀ ns : List PNode, countLabelList t ns = 1 →
      countLabelList q (attachUnderList t c ns) = countLabelList q ns + countLabel q c
  | n :: ns, h => by
    rw [countLabelList] at h
    rw [attachUnderList, countLabelList, countLabelList]
    by_cases hn : countLabel t n = 1
    · have hns : countLabelList t ns = 0 := by omega
      rw [attachUnderList_of_count_zero t c ns hns,
          countLabel_attachUnder t q c n hn]
      omega
    · have hn0 : countLabel t n = 0 := by omega
      have hns : countLabelList t ns = 1 := by omega
      rw [attachUnder_of_count_zero t c n hn0,
          countLabelList_attachUnderList t q c ns hns]
      omega
end

/-- The top label and block of a node are unchanged by `attachUnder`. -/
theorem attachUnder_shape (t : Nat) (c : PNode) (l : Nat) (b : Block)
    (cs : List PNode) :
    ∃ cs2, attachUnder t c (.mk l b cs) = .mk l b cs2 := by
  rw [attachUnder]
  by_cases hl : l = t
  · exact ⟨cs ++ [c], by simp [hl]⟩
  · exact ⟨attachUnderList t c cs, by simp [hl]⟩

/-- The depth heuristic always returns at least 1 (headings are 1-3, every
other type is 4). -/
theorem one_le_getBlockDepth (b : Block) : 1 ≤ getBlockDepth b := by
  unfold getBlockDepth hierarchyLevels
  simp only [List.lookup]
  repeat' split
  all_goals simp_all

/-- The while-loop scan for the nearest present ancestor depth succeeds and
returns a label stored in the level map, as long as depth 0 is seeded. -/
theorem findParentAt_spec (lvl : Nat → Option Nat) (z : Nat)
    (h0 : lvl 0 = some z) :
    ∀ m, ∃ p, findParentAt lvl m = some p ∧ ∃ k, k ≤ m ∧ lvl k = some p := by
  intro m
  induction m with
  | zero => exact ⟨z, by rw [findParentAt, h0], 0, le_rfl, h0⟩
  | succ m ih =>
    rw [findParentAt]
    cases hm : lvl (m + 1) with
    | some i => exact ⟨i, rfl, m + 1, le_rfl, hm⟩
    | none =>
      obtain ⟨p, hp, k, hk, hlk⟩ := ih
      exact ⟨p, hp, k, Nat.le_succ_of_le hk, hlk⟩

/-- Loop invariant of `build_tree`: depth 0 maps to the root label; every label
stored in the level map is a used label occurring exactly once in the tree;
unused labels do not occur; the current depth is mapped; and the root keeps the
sentinel label and block. -/
def GoodSt (st : BuildSt) : Prop :=
  st.level 0 = some 0 ∧
  (∀ k p, st.level k = some p → p < st.next ∧ countLabel p st.root = 1) ∧
  (∀ p, st.next ≤ p → countLabel p st.root = 0) ∧
  (∃ q, st.level st.depth = some q) ∧
  (∃ cs, st.root = .mk 0 rootBlock cs)

theorem initBuildSt_good : GoodSt initBuildSt := by
  refine ⟨rfl, ?_, ?_, ⟨0, rfl⟩, ⟨[], rfl⟩⟩
  · intro k p h
    simp only [initBuildSt] at h
    by_cases hk : k = 0
    · subst hk
      simp at h
      subst h
      exact ⟨Nat.one_pos, rfl⟩
    · simp [hk] at h
  · intro p hp
    simp only [initBuildSt] at hp
    simp only [initBuildSt, countLabel, countLabelList]
    have : ¬ (0 = p) := by omega
    simp [this]

/-- Attaching the freshly created node under any node whose label is stored in
the level map preserves the invariant and appends the new block, up to
permutation, to the flattening. -/
theorem attach_fresh_good {st : BuildSt} (hg : GoodSt st) {p k : Nat}
    (hk : st.level k = some p) (b : Block) {d : Nat} (hd : 1 ≤ d) :
    GoodSt { root := attachUnder p (.mk st.next b []) st.root,
             level := fun j => if j = d then some st.next else st.level j,
             depth := d, next := st.next + 1 } ∧
    (flattenNode (attachUnder p (.mk st.next b []) st.root)).Perm
      (flattenNode st.root ++ [b]) := by
  obtain ⟨h0, hlvl, hfresh, hcur, cs0, hshape⟩ := hg
  have hp1 : countLabel p st.root = 1 := (hlvl k p hk).2
  have hpn : p < st.next := (hlvl k p hk).1
  have hone : countLabel st.next (PNode.mk st.next b []) = 1 := by
    simp [countLabel, countLabelList]
  have hcnt : ∀ q, countLabel q (attachUnder p (.mk st.next b []) st.root)
      = countLabel q st.root + (if st.next = q then 1 else 0) := by
    intro q
    rw [countLabel_attachUnder p q _ st.root hp1]
    simp [countLabel, countLabelList]
  constructor
  · refine ⟨?_, ?_, ?_, ?_, ?_⟩
    · show (if (0 : Nat) = d then some st.next else st.level 0) = some 0
      have hne : ¬ ((0 : Nat) = d) := by omega
      rw [if_neg hne]
      exact h0
    · intro j q hj
      simp only at hj
      by_cases hjd : j = d
      · rw [if_pos hjd] at hj
        have hq : q = st.next := by injection hj; omega
        subst hq
        refine ⟨?_, ?_⟩
        · show st.next < st.next + 1
          omega
        · rw [hcnt]
          have hz : countLabel st.next st.root = 0 := hfresh st.next le_rfl
          simp [hz]
      · rw [if_neg hjd] at hj
        obtain ⟨hq1, hq2⟩ := hlvl j q hj
        refine ⟨?_, ?_⟩
        · show q < st.next + 1
          omega
        · rw [hcnt]
          have hne : ¬ (st.next = q) := by omega
          simp [hne, hq2]
    · intro q hq
      replace hq : st.next + 1 ≤ q := hq
      rw [hcnt]
      have hz : countLabel q st.root = 0 := hfresh q (by omega)
      have hne : ¬ (st.next = q) := by omega
      simp [hz, hne]
    · exact ⟨st.next, by simp⟩
    · obtain ⟨cs2, hcs2⟩ := attachUnder_shape p (.mk st.next b []) 0 rootBlock cs0
      exact ⟨cs2, by simp only [hshape, hcs2]⟩
  · have hperm := flatten_attachUnder_perm p (.mk st.next b []) st.root hp1
    have hfn : flattenNode (PNode.mk st.next b []) = [b] := by
      simp [flattenNode, flattenList]
    rw [hfn] at hperm
    exact hperm

/-- One loop iteration preserves the invariant and appends the processed block
(up to permutation) to the pre-order flattening. -/
theorem stepBlock_good {st : BuildSt} (hg : GoodSt st) (b : Block) :
    GoodSt (stepBlock st b) ∧
    (flattenNode (stepBlock st b).root).Perm (flattenNode st.root ++ [b]) := by
  have hd : 1 ≤ getBlockDepth b := one_le_getBlockDepth b
  by_cases hle : getBlockDepth b ≤ st.depth
  · obtain ⟨p, hp, k, hkm, hk⟩ :=
      findParentAt_spec st.level 0 hg.1 (getBlockDepth b - 1)
    simp only [stepBlock, hle, if_true, hp]
    exact attach_fresh_good hg hk b hd
  · obtain ⟨q, hq⟩ := hg.2.2.2.1
    simp only [stepBlock, hle, if_false, hq]
    exact attach_fresh_good hg hq b hd

/-- Folding the loop over any block list preserves the invariant and appends
the whole list, up to permutation, to the pre-order flattening. -/
theorem foldl_stepBlock_good :
    ∀ (bs : List Block) (st : BuildSt), GoodSt st →
      GoodSt (bs.foldl stepBlock st) ∧
      (flattenNode (bs.foldl stepBlock st).root).Perm (flattenNode st.root ++ bs) := by
  intro bs
  induction bs with
  | nil => intro st hst; exact ⟨hst, by simp⟩
  | cons b bs ih =>
    intro st hst
    obtain ⟨hg1, hperm1⟩ := stepBlock_good hst b
    obtain ⟨hg2, hperm2⟩ := ih (stepBlock st b) hg1
    refine ⟨hg2, ?_⟩
    rw [List.foldl_cons]
    have h3 := hperm2.trans (hperm1.append_right bs)
    simpa using h3

/-- `build_tree` always returns the sentinel root node (label 0, reserved
block) with some list of children. -/
theorem buildTree_shape (blocks : List Block) :
    ∃ cs, buildTree blocks = .mk 0 rootBlock cs :=
  (foldl_stepBlock_good blocks initBuildSt initBuildSt_good).1.2.2.2.2

/-- Core structural result: the pre-order flattening of the built tree, root
excluded, is a permutation of the input block list. -/
theorem buildTree_flatten_perm (blocks : List Block) :
    (flattenList (buildTree blocks).children).Perm blocks := by
  obtain ⟨hg, hperm⟩ := foldl_stepBlock_good blocks initBuildSt initBuildSt_good
  obtain ⟨cs, hcs⟩ := hg.2.2.2.2
  have hinit : flattenNode initBuildSt.root = [rootBlock] := by
    rw [show initBuildSt.root = PNode.mk 0 rootBlock [] from rfl, flattenNode,
        flattenList]
  rw [hinit, hcs] at hperm
  have hflat : flattenNode (PNode.mk 0 rootBlock cs) = rootBlock :: flattenList cs := by
    rw [flattenNode]
  rw [hflat, List.singleton_append] at hperm
  rw [buildTree, hcs]
  exact hperm.cons_inv

/-- In a list of blocks with pairwise distinct ids, filtering for the id of a
member always keeps exactly one element. -/
theorem filter_id_length_one :
    ∀ (blocks : List Block), (blocks.map Block.id).Nodup →
      ∀ b ∈ blocks, (blocks.filter (fun x => x.id == b.id)).length = 1 := by
  intro blocks
  induction blocks with
  | nil => intro _ b hb; cases hb
  | cons a rest ih =>
    intro hnd b hb
    rw [List.map_cons, List.nodup_cons] at hnd
    rcases List.mem_cons.1 hb with hba | hbr
    · subst hba
      rw [List.filter_cons]
      simp only [beq_self_eq_true, if_true, List.length_cons]
      have hzero : rest.filter (fun x => x.id == b.id) = [] := by
        rw [List.filter_eq_nil_iff]
        intro x hx
        simp only [beq_iff_eq]
        intro hxe
        exact hnd.1 (hxe ▸ List.mem_map_of_mem Block.id hx)
      rw [hzero]
      rfl
    · have hne : ¬ (a.id == b.id) = true := by
        simp only [beq_iff_eq]
        intro hae
        exact hnd.1 (hae ▸ List.mem_map_of_mem Block.id hbr)
      rw [List.filter_cons]
      simp only [hne, if_false]
      exact ih hnd.2 b hbr

/-
Concrete block fixtures used by counterexamples and witnesses.
The five-block sequence heading_1, heading_3, heading_1, paragraph, paragraph
exercises the stale `current_level` entry of `build_tree`: after the second
heading_1 resets `current_depth` to 1, the first paragraph lands at depth 4
under it, and the second paragraph (depth 4 <= current_depth 4) scans down to
the stale depth-3 entry (the heading_3 of the FIRST section) and is attached
there, out of order.
-/

def cxB1 : Block := { id := "b1", type := "heading_1", content := "A" }

def cxB2 : Block := { id := "b2", type := "heading_3", content := "B" }

def cxB3 : Block := { id := "b3", type := "heading_1", content := "C" }

def cxB4 : Block := { id := "b4", type := "paragraph", content := "D" }

def cxB5 : Block := { id := "b5", type := "paragraph", content := "E" }

def cxBlocks : List Block := [cxB1, cxB2, cxB3, cxB4, cxB5]

/-- C1 counterexample: for the block sequence heading_1, heading_3, heading_1,
paragraph, paragraph, the pre-order flattening of the built tree (root
excluded) is b1, b2, b5, b3, b4 — not the input order b1..b5, so the claimed
flat/tree order consistency fails. -/
theorem C1_counterexample :
    (flattenList (buildTree cxBlocks).children).map Block.id =
      ["b1", "b2", "b5", "b3", "b4"] ∧
    flattenList (buildTree cxBlocks).children ≠ cxBlocks := by
  decide

/-- C1 (amended): for every finite sequence of Blocks, the pre-order
flattening (root excluded) of the tree returned by `DocTree.build_tree` is a
permutation of the input sequence — it contains exactly the input Blocks, but
not necessarily in the original order. -/
theorem C1_flatten_perm_of_build (blocks : List Block) :
    (flattenList (buildTree blocks).children).Perm blocks :=
  buildTree_flatten_perm blocks

/-- C2: the tree built by `DocTree.build_tree` contains exactly `len blocks)`
non-root nodes, and when input ids are pairwise distinct every input Block's
id appears in exactly one node of the tree. -/
theorem C2_completeness (blocks : List Block)
    (hnd : (blocks.map Block.id).Nodup) :
    (flattenList (buildTree blocks).children).length = blocks.length ∧
    ∀ b ∈ blocks,
      ((flattenList (buildTree blocks).children).filter
        (fun x => x.id == b.id)).length = 1 := by
  have hperm := buildTree_flatten_perm blocks
  refine ⟨hperm.length_eq, ?_⟩
  intro b hb
  have hpf := (hperm.filter (fun x => x.id == b.id)).length_eq
  rw [hpf]
  exact filter_id_length_one blocks hnd b hb

/-- C2 witness: the completeness statement evaluated on the concrete five
block sequence. -/
theorem C2_completeness_witness :
    (flattenList (buildTree cxBlocks).children).length = cxBlocks.length ∧
    ∀ b ∈ cxBlocks,
      ((flattenList (buildTree cxBlocks).children).filter
        (fun x => x.id == b.id)).length = 1 :=
  C2_completeness cxBlocks (by decide)

/-- `DocTree` object state: `root` is `None` at construction and set by
`build_tree`. -/
structure DocTreeS where
  root : Option PNode

/-- `Document` from `notionlp/structure.py` (timestamps kept as strings; the
claims under verification do not inspect them). -/
structure Document where
  id : String
  title : String
  created_time : String := ""
  last_edited_time : String := ""
  last_fetched : Option String := none
  blocks : List Block := []
  tree : Option DocTreeS := none

/-- `Document.build_tree`: on empty blocks returns a fresh rootless `DocTree`
without touching `self.tree`; otherwise builds the tree, stores it on the
document and returns it. The returned pair is (returned DocTree, updated
document). -/
def Document.build_tree (doc : Document) : DocTreeS × Document :=
  if doc.blocks.isEmpty then ({ root := none }, doc)
  else
    let t : DocTreeS := { root := some (buildTree doc.blocks) }
    (t, { doc with tree := some t })

/-- `int(block_type[-1])` of `_node_to_markdown` for heading types. -/
def lastCharDigit (s : String) : Nat :=
  s.back.toNat - 48

/-- `"  " * level`. -/
def indentStr (level : Nat) : String :=
  String.join (List.replicate level "  ")

mutual
/-- `Document._node_to_markdown`: render one node (and its subtree). -/
def nodeToMarkdown : PNode → Nat → String
  | .mk _ b cs, level =>
    if b.type = "root" then
      String.intercalate "\n" (nodesToMarkdown cs level)
    else
      let line :=
        if b.type.startsWith "heading_" then
          String.mk (List.replicate (lastCharDigit b.type) '#') ++ " " ++ b.content
        else if b.type = "bulleted_list_item" then
          indentStr level ++ "- " ++ b.content
        else if b.type = "numbered_list_item" then
          indentStr level ++ "1. " ++ b.content
        else if b.type = "paragraph" then
          b.content
        else if b.type = "code" then
          "```\n" ++ b.content ++ "\n```"
        else if b.type = "quote" then
          "> " ++ b.content
        else if b.type = "divider" then
          "---"
        else
          b.content
      String.intercalate "\n" (line :: nodesToMarkdown cs (level + 1))

def nodesToMarkdown : List PNode → Nat → List String
  | [], _ => []
  | n :: ns, level => nodeToMarkdown n level :: nodesToMarkdown ns level
end

/-- `Document.to_markdown`: builds the tree first when absent and blocks
exist; a still-absent tree yields the "(No content available)" string. `none`
models the `AttributeError` Python would raise on a stored rootless tree. The
second component is the (possibly tree-populated) document. -/
def Document.to_markdown (doc : Document) : Option String × Document :=
  let doc2 :=
    if doc.tree.isNone && !doc.blocks.isEmpty then (Document.build_tree doc).2
    else doc
  match doc2.tree with
  | none => (some ("# " ++ doc2.title ++ "\n\n(No content available)"), doc2)
  | some t =>
    match t.root with
    | some r => (some (nodeToMarkdown r 0), doc2)
    | none => (none, doc2)

/-- A concrete metadata-only document with no blocks. -/
def emptyDoc : Document :=
  { id := "doc-empty", title := "Empty" }

/-- C9 counterexample: for a document with an empty block list,
`Document.build_tree` returns a `DocTree` whose `root` is `None` — there is no
root node carrying zero children, contrary to the claim. -/
theorem C9_counterexample :
    (Document.build_tree emptyDoc).fst.root = none ∧
    ¬ ∃ r, (Document.build_tree emptyDoc).fst.root = some r := by
  refine ⟨rfl, ?_⟩
  rintro ⟨r, hr⟩
  rw [show (Document.build_tree emptyDoc).fst.root = none from rfl] at hr
  exact Option.noConfusion hr

/-- C9 (amended): for every Document with an empty block list (and no
previously stored tree), `build_tree` returns a rootless empty `DocTree`
(leaving the document unchanged) rather than failing, and `to_markdown`
returns the defined "(No content available)" string rather than raising. -/
theorem C9_empty_document (doc : Document) (hb : doc.blocks = [])
    (ht : doc.tree = none) :
    (Document.build_tree doc).fst.root = none ∧
    (Document.build_tree doc).snd = doc ∧
    (Document.to_markdown doc).fst =
      some ("# " ++ doc.title ++ "\n\n(No content available)") := by
  unfold Document.build_tree Document.to_markdown
  simp [hb, ht]

/-- C9 witness: the amended statement evaluated on a concrete empty
document. -/
theorem C9_empty_document_witness :
    (Document.build_tree emptyDoc).fst.root = none ∧
    (Document.build_tree emptyDoc).snd = emptyDoc ∧
    (Document.to_markdown emptyDoc).fst =
      some ("# " ++ emptyDoc.title ++ "\n\n(No content available)") :=
  C9_empty_document emptyDoc rfl rfl

/-- Python list slicing `xs[a:b]` (step 1), including the negative-index
convention. -/
def pySlice {α : Type} (xs : List α) (a b : Int) : List α :=
  let n : Int := xs.length
  let norm : Int → Int := fun i => if i < 0 then i + n else i
  let a2 := max 0 (min (norm a) n)
  let b2 := max 0 (min (norm b) n)
  (xs.take b2.toNat).drop a2.toNat

/-- `DocumentWindow` from `doctree_nlp/windowing.py`. -/
structure DocumentWindow where
  document_id : String
  document_title : String
  offset : Int
  limit : Int
  total_blocks : Int
  blocks : List Block
  has_previous : Bool
  has_next : Bool

/-- `get_default('document.window_size')` (see `doctree_nlp/defaults.py`). -/
def defaultWindowSize : Int := 50

/-- `get_default('document.tree_nodes_per_window')`. -/
def defaultTreeNodesPerWindow : Int := 20

/-- `DocumentWindower`, holding the default window size resolved in
`__init__` via `default_window_size or get_default('document.window_size')`. -/
structure DocumentWindower where
  default_window_size : Int

/-- `DocumentWindower.create_window(document, offset, limit)`. The Python
defaults are `offset=0`, `limit=None`. -/
def DocumentWindower.create_window (w : DocumentWindower) (document : Document)
    (offset : Int) (limit : Option Int) : DocumentWindow :=
  let limit :=
    match limit with
    | none => w.default_window_size
    | some l => l
  let total_blocks : Int := document.blocks.length
  let offset :=
    if offset < 0 then 0
    else if offset ≥ total_blocks then max 0 (total_blocks - limit)
    else offset
  let end_idx := min (offset + limit) total_blocks
  let window_blocks := pySlice document.blocks offset end_idx
  { document_id := document.id
    document_title := document.title
    offset := offset
    limit := limit
    total_blocks := total_blocks
    blocks := window_blocks
    has_previous := decide (offset > 0)
    has_next := decide (end_idx < total_blocks) }

/-- `DocumentWindower.get_next_window`. -/
def DocumentWindower.get_next_window (w : DocumentWindower)
    (current_window : DocumentWindow) (document : Document) : DocumentWindow :=
  w.create_window document (current_window.offset + current_window.limit)
    (some current_window.limit)

/-- `DocumentWindower.get_previous_window`. -/
def DocumentWindower.get_previous_window (w : DocumentWindower)
    (current_window : DocumentWindow) (document : Document) : DocumentWindow :=
  w.create_window document (max 0 (current_window.offset - current_window.limit))
    (some current_window.limit)

/-- Python `range(0, stop, step)` for `step >= 1`, as a list. -/
def pyRangeStep (stop step : Nat) : List Nat :=
  (List.range ((stop + step - 1) / step)).map (fun i => i * step)

/-- `DocumentWindower.generate_all_windows(document, window_size)`, with the
generator materialized as a list. A non-positive window size is modelled as an
empty sequence (in Python, `range` with step 0 raises `ValueError` and a
negative step yields nothing). -/
def DocumentWindower.generate_all_windows (w : DocumentWindower)
    (document : Document) (window_size : Option Int) : List DocumentWindow :=
  let ws :=
    match window_size with
    | none => w.default_window_size
    | some v => v
  if ws ≤ 0 then []
  else
    (pyRangeStep document.blocks.length ws.toNat).map
      (fun (off : Nat) => w.create_window document (off : Int) (some ws))

/-- `TreeWindower`. -/
structure TreeWindower where
  default_nodes_per_window : Int

mutual
/-- `TreeWindower._collect_nodes(node)`: the node itself followed by the
collected nodes of all children — the root it is called on is included. -/
def collectNodes : PNode → List PNode
  | .mk l b cs => .mk l b cs :: collectNodesList cs

def collectNodesList : List PNode → List PNode
  | [] => []
  | n :: ns => collectNodes n ++ collectNodesList ns
end

/-- `TreeWindower.window_tree(document, offset, limit)`. Returns (windowed
nodes, has_previous, has_next) together with the possibly tree-populated
document. -/
def TreeWindower.window_tree (tw : TreeWindower) (document : Document)
    (offset : Int) (limit : Option Int) : (List PNode × Bool × Bool) × Document :=
  let limit :=
    match limit with
    | none => tw.default_nodes_per_window
    | some v => v
  let document :=
    if document.tree.isNone then (Document.build_tree document).2 else document
  match document.tree with
  | none => (([], false, false), document)
  | some t =>
    match t.root with
    | none => (([], false, false), document)
    | some root =>
      let all_nodes := collectNodes root
      let total_nodes : Int := all_nodes.length
      let offset :=
        if offset < 0 then 0
        else if offset ≥ total_nodes then max 0 (total_nodes - limit)
        else offset
      let end_idx := min (offset + limit) total_nodes
      ((pySlice all_nodes offset end_idx, decide (offset > 0),
        decide (end_idx < total_nodes)), document)

/-- `TreeWindower.find_node_window(document, node_id, context_nodes, limit)`.
The Python defaults are `context_nodes=5`, `limit=None`. -/
def TreeWindower.find_node_window (tw : TreeWindower) (document : Document)
    (node_id : String) (context_nodes : Int) (limit : Option Int) :
    (List PNode × Bool × Bool) × Document :=
  let limit :=
    match limit with
    | none => tw.default_nodes_per_window
    | some v => v
  let document :=
    if document.tree.isNone then (Document.build_tree document).2 else document
  match document.tree with
  | none => (([], false, false), document)
  | some t =>
    match t.root with
    | none => (([], false, false), document)
    | some root =>
      let all_nodes := collectNodes root
      match all_nodes.findIdx? (fun n => n.block.id == node_id) with
      | none => (([], false, false), document)
      | some i =>
        tw.window_tree document (max 0 ((i : Int) - context_nodes)) (some limit)

/-- A concrete 10-block document for window fixtures. -/
def cxBlocks10 : List Block :=
  (List.range 10).map
    (fun i => { id := "p" ++ toString i, type := "paragraph", content := "t" })

def cxDoc10 : Document :=
  { id := "d10", title := "Ten", blocks := cxBlocks10 }

def dw1 : DocumentWindower := { default_window_size := 50 }

def tw1 : TreeWindower := { default_nodes_per_window := 20 }

/-- A concrete one-block document for tree-window fixtures. -/
def cxDoc1 : Document :=
  { id := "d1", title := "One", blocks := [cxB4] }

/-- C6 counterexample: on a 10-block document with limit 3, the in-range
offset 8 is NOT clamped into `[0, max(0, total - limit)] = [0, 7]`; the
returned window keeps offset 8. -/
theorem C6_counterexample :
    (dw1.create_window cxDoc10 8 (some 3)).offset = 8 ∧
    ¬ ((dw1.create_window cxDoc10 8 (some 3)).offset ≤ max 0 ((10 : Int) - 3)) := by
  decide

/-- C6 (amended): `create_window` clamps only offsets that are negative
(to 0) or at least `total` (to `max 0 (total - limit)`); offsets already in
`[0, total)` are kept unchanged, so the returned offset lies in
`[0, max 0 (total - 1)]`, not necessarily in `[0, max 0 (total - limit)]`. -/
theorem C6_offset_clamp (w : DocumentWindower) (doc : Document)
    (offset lim : Int) (hl : 1 ≤ lim) :
    0 ≤ (w.create_window doc offset (some lim)).offset ∧
    (w.create_window doc offset (some lim)).offset ≤
      max 0 ((doc.blocks.length : Int) - 1) ∧
    (offset < 0 → (w.create_window doc offset (some lim)).offset = 0) ∧
    ((doc.blocks.length : Int) ≤ offset →
      (w.create_window doc offset (some lim)).offset =
        max 0 ((doc.blocks.length : Int) - lim)) ∧
    (0 ≤ offset → offset < (doc.blocks.length : Int) →
      (w.create_window doc offset (some lim)).offset = offset) := by
  have h : (w.create_window doc offset (some lim)).offset =
      (if offset < 0 then 0
       else if offset ≥ (doc.blocks.length : Int) then
         max 0 ((doc.blocks.length : Int) - lim)
       else offset) := rfl
  rw [h]
  split_ifs with h1 h2 <;> omega

/-- C6 witness: the amended clamping statement evaluated at the concrete
10-block document, offset -4 and limit 3. -/
theorem C6_offset_clamp_witness :
    0 ≤ (dw1.create_window cxDoc10 (-4) (some 3)).offset ∧
    (dw1.create_window cxDoc10 (-4) (some 3)).offset ≤
      max 0 ((cxDoc10.blocks.length : Int) - 1) ∧
    ((-4 : Int) < 0 → (dw1.create_window cxDoc10 (-4) (some 3)).offset = 0) ∧
    ((cxDoc10.blocks.length : Int) ≤ -4 →
      (dw1.create_window cxDoc10 (-4) (some 3)).offset =
        max 0 ((cxDoc10.blocks.length : Int) - 3)) ∧
    (0 ≤ (-4 : Int) → (-4 : Int) < (cxDoc10.blocks.length : Int) →
      (dw1.create_window cxDoc10 (-4) (some 3)).offset = -4) :=
  C6_offset_clamp dw1 cxDoc10 (-4) 3 (by decide)

/-- C8: every window returned by `create_window` has
`has_previous = (offset > 0)` (so `has_previous = false` exactly at offset 0),
`has_next = false` whenever `offset + limit >= total`, and its block slice is
the range `[offset, min(offset + limit, total))` of the document's blocks. -/
theorem C8_boundary_flags (w : DocumentWindower) (doc : Document)
    (offset lim : Int) (hl : 1 ≤ lim) (win : DocumentWindow)
    (hw : win = w.create_window doc offset (some lim)) :
    (win.has_previous = false ↔ win.offset = 0) ∧
    (win.total_blocks ≤ win.offset + win.limit → win.has_next = false) ∧
    win.blocks =
      (doc.blocks.take (min (win.offset + win.limit) win.total_blocks).toNat).drop
        win.offset.toNat := by
  subst hw
  have ho : (w.create_window doc offset (some lim)).offset =
      (if offset < 0 then 0
       else if offset ≥ (doc.blocks.length : Int) then
         max 0 ((doc.blocks.length : Int) - lim)
       else offset) := rfl
  have hlim : (w.create_window doc offset (some lim)).limit = lim := rfl
  have htot : (w.create_window doc offset (some lim)).total_blocks =
      (doc.blocks.length : Int) := rfl
  have hprev : (w.create_window doc offset (some lim)).has_previous =
      decide ((w.create_window doc offset (some lim)).offset > 0) := rfl
  have hnext : (w.create_window doc offset (some lim)).has_next =
      decide (min ((w.create_window doc offset (some lim)).offset + lim)
        (doc.blocks.length : Int) < (doc.blocks.length : Int)) := rfl
  have hblocks : (w.create_window doc offset (some lim)).blocks =
      pySlice doc.blocks (w.create_window doc offset (some lim)).offset
        (min ((w.create_window doc offset (some lim)).offset + lim)
          (doc.blocks.length : Int)) := rfl
  have hnn : 0 ≤ (w.create_window doc offset (some lim)).offset := by
    rw [ho]; split_ifs <;> omega
  have hub : (w.create_window doc offset (some lim)).offset ≤
      (doc.blocks.length : Int) := by
    rw [ho]; split_ifs <;> omega
  refine ⟨?_, ?_, ?_⟩
  · rw [hprev]
    simp only [decide_eq_false_iff_not, not_lt]
    omega
  · rw [htot, hlim, hnext]
    intro hge
    simp only [decide_eq_false_iff_not, not_lt]
    omega
  · rw [hblocks, hlim, htot, pySlice]
    have hends : (0 : Int) ≤
        min ((w.create_window doc offset (some lim)).offset + lim)
          (doc.blocks.length : Int) := by omega
    have hend2 : min ((w.create_window doc offset (some lim)).offset + lim)
        (doc.blocks.length : Int) ≤ (doc.blocks.length : Int) := by omega
    simp only
    rw [if_neg (by omega), if_neg (by omega)]
    rw [show max 0 (min (min ((w.create_window doc offset (some lim)).offset + lim)
          ((doc.blocks.length : Int))) ((doc.blocks.length : Int))) =
        min ((w.create_window doc offset (some lim)).offset + lim)
          ((doc.blocks.length : Int)) from by omega]
    rw [show max 0 (min ((w.create_window doc offset (some lim)).offset)
          ((doc.blocks.length : Int))) =
        (w.create_window doc offset (some lim)).offset from by omega]

theorem pyRangeStep_zero (s : Nat) (hs : 1 ≤ s) : pyRangeStep 0 s = [] := by
  have h : (s - 1) / s = 0 := Nat.div_eq_of_lt (by omega)
  simp [pyRangeStep, h]

/-- Unfolding of Python `range(0, n, s)` for `n >= 1`: offset 0 followed by
the offsets for the remaining `n - s` items, shifted by `s`. -/
theorem pyRangeStep_decomp (n s : Nat) (hs : 1 ≤ s) (hn : 1 ≤ n) :
    pyRangeStep n s = 0 :: (pyRangeStep (n - s) s).map (· + s) := by
  have hcount : (n + s - 1) / s = (n - s + s - 1) / s + 1 := by
    have key : n + s - 1 = (n - 1) + s := by omega
    rw [key, Nat.add_div_right _ (by omega)]
    rcases le_or_lt s n with h | h
    · have : n - s + s - 1 = n - 1 := by omega
      rw [this]
    · have h0 : n - s = 0 := by omega
      rw [h0]
      have h1 : (0 + s - 1) / s = 0 := Nat.div_eq_of_lt (by omega)
      have h2 : (n - 1) / s = 0 := Nat.div_eq_of_lt (by omega)
      rw [h1, h2]
  rw [pyRangeStep, pyRangeStep, hcount, List.range_succ_eq_map]
  simp only [List.map_cons, Nat.zero_mul, List.map_map]
  congr 1
  apply List.map_congr_left
  intro i _
  simp only [Function.comp_apply]
  rw [Nat.succ_mul]

theorem pyRangeStep_lt (n s : Nat) (hs : 1 ≤ s) :
    ∀ off ∈ pyRangeStep n s, off < n := by
  intro off hoff
  simp only [pyRangeStep, List.mem_map, List.mem_range] at hoff
  obtain ⟨i, hi, rfl⟩ := hoff
  have h4 : i * s + s ≤ n + s - 1 := by
    have h2 : (i + 1) * s ≤ ((n + s - 1) / s) * s :=
      Nat.mul_le_mul_right s hi
    have h3 : ((n + s - 1) / s) * s ≤ n + s - 1 := Nat.div_mul_le_self _ _
    have h5 : i * s + s = (i + 1) * s := (Nat.succ_mul i s).symm
    omega
  omega

/-- Concatenating the `s`-sized chunks of a list at the Python range offsets
reproduces the list. -/
theorem join_chunks {α : Type} (s : Nat) (hs : 1 ≤ s) :
    ∀ (n : Nat) (xs : List α), xs.length = n →
      ((pyRangeStep xs.length s).map (fun off => (xs.drop off).take s)).flatten = xs := by
  intro n
  induction n using Nat.strong_induction_on with
  | _ n ih =>
    intro xs hlen
    by_cases h0 : xs.length = 0
    · have hx : xs = [] := List.eq_nil_of_length_eq_zero h0
      subst hx
      simp only [List.length_nil]
      rw [pyRangeStep_zero s hs]
      rfl
    · have h1 : 1 ≤ xs.length := by omega
      rw [pyRangeStep_decomp xs.length s hs h1]
      rw [List.map_cons, List.map_map, List.flatten]
      have hdl : (xs.drop s).length = xs.length - s := List.length_drop s xs
      have htail :
          ((pyRangeStep (xs.length - s) s).map
            ((fun off => (xs.drop off).take s) ∘ (· + s))) =
          (pyRangeStep ((xs.drop s).length) s).map
            (fun off => ((xs.drop s).drop off).take s) := by
        rw [hdl]
        apply List.map_congr_left
        intro a _
        simp only [Function.comp_apply]
        rw [List.drop_drop, Nat.add_comm s a]
      rw [htail, ih (xs.length - s) (by omega) (xs.drop s) hdl]
      rw [List.drop_zero]
      exact List.take_append_drop s xs

/-- For an in-range offset, the window slice is exactly `drop offset` then
`take limit`. -/
theorem create_window_blocks_drop_take (w : DocumentWindower) (doc : Document)
    (off : Nat) (k : Int) (hk : 1 ≤ k) (hoff : off < doc.blocks.length) :
    (w.create_window doc ((off : Int)) (some k)).blocks =
      (doc.blocks.drop off).take k.toNat := by
  have ho : (w.create_window doc ((off : Int)) (some k)).offset = (off : Int) := by
    rw [show (w.create_window doc ((off : Int)) (some k)).offset =
        (if ((off : Int) : Int) < 0 then 0
         else if ((off : Int) : Int) ≥ (doc.blocks.length : Int) then
           max 0 ((doc.blocks.length : Int) - k)
         else (off : Int)) from rfl]
    rw [if_neg (by omega), if_neg (by omega)]
  have hb : (w.create_window doc ((off : Int)) (some k)).blocks =
      pySlice doc.blocks (w.create_window doc ((off : Int)) (some k)).offset
        (min ((w.create_window doc ((off : Int)) (some k)).offset + k)
          (doc.blocks.length : Int)) := rfl
  rw [hb, ho, pySlice]
  simp only
  rw [if_neg (by omega), if_neg (by omega)]
  rw [show max 0 (min (min (((off : Int) : Int) + k) ((doc.blocks.length : Int)))
        ((doc.blocks.length : Int))) = min (((off : Int) : Int) + k)
        ((doc.blocks.length : Int)) from by omega]
  rw [show max 0 (min ((off : Int) : Int) ((doc.blocks.length : Int))) =
      ((off : Int) : Int) from by omega]
  rw [List.drop_take]
  apply (List.take_eq_take).mpr
  rw [List.length_drop]
  omega

/-- C7: concatenating, in order, the block slices of all windows produced by
`generate_all_windows(document, k)` (k >= 1) reproduces the document's full
block sequence exactly once. -/
theorem C7_window_coverage (w : DocumentWindower) (doc : Document) (k : Int)
    (hk : 1 ≤ k) :
    ((w.generate_all_windows doc (some k)).map DocumentWindow.blocks).flatten =
      doc.blocks := by
  have hks : ¬ (k ≤ 0) := by omega
  rw [show w.generate_all_windows doc (some k) =
      (if k ≤ 0 then []
       else (pyRangeStep doc.blocks.length k.toNat).map
         (fun (off : Nat) => w.create_window doc (off : Int) (some k))) from rfl]
  rw [if_neg hks, List.map_map]
  have hmap : ((pyRangeStep doc.blocks.length k.toNat).map
      (DocumentWindow.blocks ∘ (fun (off : Nat) => w.create_window doc (off : Int) (some k)))) =
      (pyRangeStep doc.blocks.length k.toNat).map
        (fun off => (doc.blocks.drop off).take k.toNat) := by
    apply List.map_congr_left
    intro a ha
    have halt := pyRangeStep_lt doc.blocks.length k.toNat (by omega) a ha
    simp only [Function.comp_apply]
    exact create_window_blocks_drop_take w doc a k hk halt
  rw [hmap]
  exact join_chunks k.toNat (by omega) doc.blocks.length doc.blocks rfl

/-- C7 witness: window coverage evaluated at the concrete 10-block document
with window size 3. -/
theorem C7_window_coverage_witness :
    ((dw1.generate_all_windows cxDoc10 (some 3)).map DocumentWindow.blocks).flatten =
      cxDoc10.blocks :=
  C7_window_coverage dw1 cxDoc10 3 (by decide)

/-- C8 witness: the boundary-flag statement evaluated at the concrete
10-block document, offset 0 and limit 3 (spec Example B). -/
theorem C8_boundary_flags_witness :
    ((dw1.create_window cxDoc10 0 (some 3)).has_previous = false ↔
      (dw1.create_window cxDoc10 0 (some 3)).offset = 0) ∧
    ((dw1.create_window cxDoc10 0 (some 3)).total_blocks ≤
        (dw1.create_window cxDoc10 0 (some 3)).offset +
          (dw1.create_window cxDoc10 0 (some 3)).limit →
      (dw1.create_window cxDoc10 0 (some 3)).has_next = false) ∧
    (dw1.create_window cxDoc10 0 (some 3)).blocks =
      (cxDoc10.blocks.take
        (min ((dw1.create_window cxDoc10 0 (some 3)).offset +
            (dw1.create_window cxDoc10 0 (some 3)).limit)
          (dw1.create_window cxDoc10 0 (some 3)).total_blocks).toNat).drop
        (dw1.create_window cxDoc10 0 (some 3)).offset.toNat :=
  C8_boundary_flags dw1 cxDoc10 0 3 (by decide) _ rfl

mutual
theorem length_collectNodes :
    ∀ n : PNode, (collectNodes n).length = (flattenNode n).length
  | .mk l b cs => by
    rw [collectNodes, flattenNode, List.length_cons, List.length_cons,
        length_collectNodesList cs]

theorem length_collectNodesList :
    ∀ ns : List PNode, (collectNodesList ns).length = (flattenList ns).length
  | [] => by rw [collectNodesList, flattenList]; rfl
  | n :: ns => by
    rw [collectNodesList, flattenList, List.length_append, List.length_append,
        length_collectNodes n, length_collectNodesList ns]
end

theorem flattenNode_buildTree_length (blocks : List Block) :
    (flattenNode (buildTree blocks)).length = blocks.length + 1 := by
  obtain ⟨cs, hcs⟩ := buildTree_shape blocks
  have hp := (buildTree_flatten_perm blocks).length_eq
  rw [hcs] at hp
  have hch : (PNode.mk 0 rootBlock cs).children = cs := rfl
  rw [hch] at hp
  rw [hcs, flattenNode, List.length_cons, hp]

theorem collectNodes_buildTree_length (blocks : List Block) :
    (collectNodes (buildTree blocks)).length = blocks.length + 1 := by
  rw [length_collectNodes]
  exact flattenNode_buildTree_length blocks

/-- C4 counterexample: on a one-block document, `window_tree` at offset 0
returns a window whose node list starts with the sentinel root node (type
"root"), and whose totalNodes (window length here) is 2, not the 1 non-root
node — the flattened list includes the root. -/
theorem C4_counterexample :
    ((tw1.window_tree cxDoc1 0 (some 10)).fst.fst.map (fun n => n.block.type)) =
      ["root", "paragraph"] ∧
    (tw1.window_tree cxDoc1 0 (some 10)).fst.fst.length ≠ cxDoc1.blocks.length := by
  decide

/-- Reduction of `window_tree` on a document whose tree is built on demand
from a non-empty block list. -/
theorem window_tree_eq (tw : TreeWindower) (doc : Document) (offset lim : Int)
    (ht : doc.tree = none) (hb : doc.blocks ≠ []) :
    tw.window_tree doc offset (some lim) =
      ((pySlice (collectNodes (buildTree doc.blocks))
          (if offset < 0 then 0
           else if offset ≥ ((collectNodes (buildTree doc.blocks)).length : Int) then
             max 0 (((collectNodes (buildTree doc.blocks)).length : Int) - lim)
           else offset)
          (min ((if offset < 0 then 0
                 else if offset ≥ ((collectNodes (buildTree doc.blocks)).length : Int) then
                   max 0 (((collectNodes (buildTree doc.blocks)).length : Int) - lim)
                 else offset) + lim)
            ((collectNodes (buildTree doc.blocks)).length : Int)),
        decide ((if offset < 0 then 0
                 else if offset ≥ ((collectNodes (buildTree doc.blocks)).length : Int) then
                   max 0 (((collectNodes (buildTree doc.blocks)).length : Int) - lim)
                 else offset) > 0),
        decide (min ((if offset < 0 then 0
                      else if offset ≥ ((collectNodes (buildTree doc.blocks)).length : Int) then
                        max 0 (((collectNodes (buildTree doc.blocks)).length : Int) - lim)
                      else offset) + lim)
            ((collectNodes (buildTree doc.blocks)).length : Int) <
          ((collectNodes (buildTree doc.blocks)).length : Int))),
       { doc with tree := some { root := some (buildTree doc.blocks) } }) := by
  have hie : doc.blocks.isEmpty = false := by
    cases hx : doc.blocks with
    | nil => exact absurd hx hb
    | cons a l => rfl
  rw [TreeWindower.window_tree]
  simp only [ht, Option.isNone_none, if_true, Document.build_tree, hie,
    Bool.false_eq_true, if_false]

/-- C4 (amended): `window_tree` operates over the pre-order flattened node
list WITH the sentinel root included at position 0: for a document whose tree
is built from a non-empty block list, the window at offset 0 (limit >= 1)
starts with the root node, and the flattened list has `len(blocks) + 1`
nodes (non-root count plus the root). -/
theorem C4_tree_window_root (tw : TreeWindower) (doc : Document)
    (hb : doc.blocks ≠ []) (ht : doc.tree = none) (lim : Int) (hl : 1 ≤ lim) :
    (tw.window_tree doc 0 (some lim)).fst.fst.head? =
      some (buildTree doc.blocks) ∧
    (collectNodes (buildTree doc.blocks)).length = doc.blocks.length + 1 := by
  have hlen := collectNodes_buildTree_length doc.blocks
  refine ⟨?_, hlen⟩
  obtain ⟨cs, hcs⟩ := buildTree_shape doc.blocks
  have hA : collectNodes (buildTree doc.blocks) =
      buildTree doc.blocks :: collectNodesList cs := by
    rw [hcs, collectNodes]
  rw [window_tree_eq tw doc 0 lim ht hb]
  have hbl : 1 ≤ doc.blocks.length := by
    cases hx : doc.blocks with
    | nil => exact absurd hx hb
    | cons a l => simp
  have htot : ((collectNodes (buildTree doc.blocks)).length : Int) =
      (doc.blocks.length : Int) + 1 := by
    rw [hlen]
    push_cast
    ring
  have h1 : ¬ ((0 : Int) < 0) := by omega
  have h2 : ¬ ((0 : Int) ≥ ((collectNodes (buildTree doc.blocks)).length : Int)) := by
    omega
  simp only [h1, h2, if_false]
  rw [pySlice]
  simp only
  have hend : (0 : Int) ≤ min (0 + lim) ((collectNodes (buildTree doc.blocks)).length : Int) := by
    omega
  rw [if_neg (by omega), if_neg (by omega)]
  rw [show max 0 (min (min ((0 : Int) + lim)
        ((collectNodes (buildTree doc.blocks)).length : Int))
        ((collectNodes (buildTree doc.blocks)).length : Int)) =
      min lim ((collectNodes (buildTree doc.blocks)).length : Int) from by omega]
  rw [show max 0 (min (0 : Int) ((collectNodes (buildTree doc.blocks)).length : Int)) =
      0 from by omega]
  rw [hA]
  have hk1 : 1 ≤ (min lim (((buildTree doc.blocks :: collectNodesList cs).length : Int))).toNat := by
    rw [← hA]
    omega
  rcases Nat.exists_eq_add_of_le hk1 with ⟨k, hk⟩
  rw [hk, Nat.add_comm 1 k, Int.toNat_zero, List.drop_zero, List.take_succ_cons, List.head?_cons]

/-- C4 witness: the amended statement evaluated on the concrete one-block
document. -/
theorem C4_tree_window_root_witness :
    (tw1.window_tree cxDoc1 0 (some 10)).fst.fst.head? =
      some (buildTree cxDoc1.blocks) ∧
    (collectNodes (buildTree cxDoc1.blocks)).length = cxDoc1.blocks.length + 1 :=
  C4_tree_window_root tw1 cxDoc1 (by decide) rfl 10 (by decide)

/-- Result of one `client.get_document_content` call: a block list on success,
`err` when the call raises. The modelled client is deterministic: every call
returns the same result. -/
inductive FetchResult where
  | ok (blocks : List Block)
  | err

/-- `LazyDocument` state (`doctree_nlp/lazy_document.py`): the wrapped
document, the client behaviour (`none` = no client), the `_blocks_loaded`,
`_tree_loaded` and `_loading_in_progress` flags, and a ghost counter of
Provider invocations used to state the call-count properties. -/
structure LazyDoc where
  doc : Document
  client : Option FetchResult
  blocks_loaded : Bool
  tree_loaded : Bool
  loading_in_progress : Bool
  calls : Nat

/-- `LazyDocument._load_blocks_if_needed`. The `finally` clause restores
`_loading_in_progress` to its previous (false) value, so only the net state
change is modelled. On a successful fetch of a non-empty list the blocks are
stored and `_blocks_loaded` is set; on a successful fetch of an EMPTY list
only a warning is logged and the flag is NOT set; on an exception the flag is
set with the blocks left unchanged. -/
def loadBlocksIfNeeded (d : LazyDoc) : LazyDoc :=
  if !d.blocks_loaded && !d.loading_in_progress then
    match d.client with
    | some fr =>
      let d2 := { d with calls := d.calls + 1 }
      match fr with
      | .ok blocks =>
        if !blocks.isEmpty then
          { d2 with doc := { d2.doc with blocks := blocks }, blocks_loaded := true }
        else d2
      | .err => { d2 with blocks_loaded := true }
    | none => d
  else d

/-- The explicit assignment path `doc.blocks = xs` through
`LazyDocument.__setattr__`: store the blocks and mark them loaded. -/
def setBlocks (d : LazyDoc) (xs : List Block) : LazyDoc :=
  { d with doc := { d.doc with blocks := xs }, blocks_loaded := true }

/-- `LazyDocument._ensure_tree_built`. The `self.blocks` reads inside run
with `_loading_in_progress = True`, so they cannot re-trigger a load. -/
def ensureTreeBuilt (d : LazyDoc) : LazyDoc :=
  let d := loadBlocksIfNeeded d
  if !d.tree_loaded && !d.loading_in_progress then
    if !d.doc.blocks.isEmpty then
      { d with doc := (Document.build_tree d.doc).2, tree_loaded := true }
    else d
  else d

/-- One content access on a `LazyDocument`, as a state transformer. Each
`self.blocks` attribute read outside a guarded section goes through
`__getattribute__` and may re-trigger `_load_blocks_if_needed`. -/
inductive Access where
  | getBlocks
  | previewText (nChars : Nat)
  | previewBlocks (n : Nat)
  | toMarkdown

/-- State effect of each access. `preview_*` call `_load_blocks_if_needed`
then read `self.blocks` once in the parent implementation; `to_markdown`
calls `_ensure_tree_built` and then runs `Document.to_markdown`, whose
`self.blocks` reads (guard, and the two reads inside `build_tree` when the
guard passes) each may re-trigger a load. -/
def applyAccess (d : LazyDoc) : Access → LazyDoc
  | .getBlocks => loadBlocksIfNeeded d
  | .previewText _ => loadBlocksIfNeeded (loadBlocksIfNeeded d)
  | .previewBlocks _ => loadBlocksIfNeeded (loadBlocksIfNeeded d)
  | .toMarkdown =>
    let d := ensureTreeBuilt d
    if d.doc.tree.isNone then
      let d := loadBlocksIfNeeded d
      if !d.doc.blocks.isEmpty then
        let d := loadBlocksIfNeeded d
        let d := loadBlocksIfNeeded d
        let d := loadBlocksIfNeeded d
        { d with doc := (Document.build_tree d.doc).2, tree_loaded := true }
      else d
    else d

/-- Run a sequence of content accesses. -/
def runAccesses (d : LazyDoc) : List Access → LazyDoc
  | [] => d
  | a :: as => runAccesses (applyAccess d a) as

/-- A client that never succeeds with an empty block list (it may be absent,
raise, or return non-empty blocks). -/
def GoodClient (c : Option FetchResult) : Prop :=
  ∀ bs, c = some (.ok bs) → bs ≠ []

/-- Remaining Provider-call budget of a lazy document: one pending call when
blocks are unloaded and a client is present, none otherwise. -/
def budget (d : LazyDoc) : Nat :=
  if d.blocks_loaded then 0
  else if d.client.isSome then 1 else 0

/-- Bookkeeping relation between a lazy-document state and a later one:
the call counter grows by at most the consumed budget, the client is
unchanged, the reentrancy flag is back to false, calls never decrease, and
loaded-ness is preserved. -/
def Chainable (d e : LazyDoc) : Prop :=
  e.calls + budget e ≤ d.calls + budget d ∧
  e.client = d.client ∧
  e.loading_in_progress = false ∧
  d.calls ≤ e.calls ∧
  (d.blocks_loaded = true → e.blocks_loaded = true)

theorem chainable_refl (d : LazyDoc) (hlip : d.loading_in_progress = false) :
    Chainable d d :=
  ⟨le_rfl, rfl, hlip, le_rfl, fun h => h⟩

theorem chainable_trans {d e f : LazyDoc} (h1 : Chainable d e)
    (h2 : Chainable e f) : Chainable d f := by
  obtain ⟨a1, b1, c1, d1, e1⟩ := h1
  obtain ⟨a2, b2, c2, d2, e2⟩ := h2
  exact ⟨by omega, by rw [b2, b1], c2, by omega, fun h => e2 (e1 h)⟩

/-- A pure update of the document payload and tree flag does not touch the
call accounting. -/
theorem chainable_update (d : LazyDoc) (hlip : d.loading_in_progress = false)
    (doc2 : Document) :
    Chainable d { d with doc := doc2, tree_loaded := true } := by
  refine ⟨?_, rfl, hlip, le_rfl, fun h => h⟩
  have h1 : ({ d with doc := doc2, tree_loaded := true } : LazyDoc).calls =
      d.calls := rfl
  have h2 : budget { d with doc := doc2, tree_loaded := true } = budget d := rfl
  omega

theorem load_loaded (d : LazyDoc) (h : d.blocks_loaded = true) :
    loadBlocksIfNeeded d = d := by
  rw [loadBlocksIfNeeded]
  simp [h]

theorem load_chainable (d : LazyDoc) (hlip : d.loading_in_progress = false)
    (hgc : GoodClient d.client) : Chainable d (loadBlocksIfNeeded d) := by
  by_cases hb : d.blocks_loaded
  · rw [load_loaded d hb]
    exact chainable_refl d hlip
  · have hb2 : d.blocks_loaded = false := by
      cases h : d.blocks_loaded
      · rfl
      · exact absurd h hb
    have hbud : budget d ≤ 1 := by
      rw [budget]
      split_ifs <;> omega
    cases hc : d.client with
    | none =>
      have hstep : loadBlocksIfNeeded d = d := by
        rw [loadBlocksIfNeeded]
        simp [hb2, hlip, hc]
      rw [hstep]
      exact chainable_refl d hlip
    | some fr =>
      cases fr with
      | ok bs =>
        have hbs : bs ≠ [] := hgc bs hc
        have hie : bs.isEmpty = false := by
          cases hx : bs with
          | nil => exact absurd hx hbs
          | cons a l => rfl
        have hstep : loadBlocksIfNeeded d =
            { d with
              doc := { d.doc with blocks := bs }
              blocks_loaded := true
              calls := d.calls + 1 } := by
          rw [loadBlocksIfNeeded]
          simp [hb2, hlip, hc, hie]
        rw [hstep]
        refine ⟨?_, rfl, hlip, ?_, fun _ => rfl⟩
        · have h1 : budget { d with
              doc := { d.doc with blocks := bs }
              blocks_loaded := true
              calls := d.calls + 1 } = 0 := rfl
          have h2 : budget d = 1 := by
            rw [budget]
            simp [hb2, hc]
          have h3 : ({ d with
              doc := { d.doc with blocks := bs }
              blocks_loaded := true
              calls := d.calls + 1 } : LazyDoc).calls = d.calls + 1 := rfl
          omega
        · have h3 : ({ d with
              doc := { d.doc with blocks := bs }
              blocks_loaded := true
              calls := d.calls + 1 } : LazyDoc).calls = d.calls + 1 := rfl
          omega
      | err =>
        have hstep : loadBlocksIfNeeded d =
            { d with
              blocks_loaded := true
              calls := d.calls + 1 } := by
          rw [loadBlocksIfNeeded]
          simp [hb2, hlip, hc]
        rw [hstep]
        refine ⟨?_, rfl, hlip, ?_, fun _ => rfl⟩
        · have h1 : budget { d with
              blocks_loaded := true
              calls := d.calls + 1 } = 0 := rfl
          have h2 : budget d = 1 := by
            rw [budget]
            simp [hb2, hc]
          have h3 : ({ d with
              blocks_loaded := true
              calls := d.calls + 1 } : LazyDoc).calls = d.calls + 1 := rfl
          omega
        · have h3 : ({ d with
              blocks_loaded := true
              calls := d.calls + 1 } : LazyDoc).calls = d.calls + 1 := rfl
          omega

theorem ensure_chainable (d : LazyDoc) (hlip : d.loading_in_progress = false)
    (hgc : GoodClient d.client) : Chainable d (ensureTreeBuilt d) := by
  have h1 := load_chainable d hlip hgc
  rw [ensureTreeBuilt]
  split
  · split
    · exact chainable_trans h1 (chainable_update _ h1.2.2.1 _)
    · exact h1
  · exact h1

theorem applyAccess_chainable (a : Access) (d : LazyDoc)
    (hlip : d.loading_in_progress = false) (hgc : GoodClient d.client) :
    Chainable d (applyAccess d a) := by
  cases a with
  | getBlocks => exact load_chainable d hlip hgc
  | previewText n =>
    have h1 := load_chainable d hlip hgc
    have hgc2 : GoodClient (loadBlocksIfNeeded d).client := by
      rw [h1.2.1]; exact hgc
    exact chainable_trans h1 (load_chainable _ h1.2.2.1 hgc2)
  | previewBlocks n =>
    have h1 := load_chainable d hlip hgc
    have hgc2 : GoodClient (loadBlocksIfNeeded d).client := by
      rw [h1.2.1]; exact hgc
    exact chainable_trans h1 (load_chainable _ h1.2.2.1 hgc2)
  | toMarkdown =>
    have h1 := ensure_chainable d hlip hgc
    have hgc1 : GoodClient (ensureTreeBuilt d).client := by
      rw [h1.2.1]; exact hgc
    simp only [applyAccess]
    split
    · have h2 := load_chainable _ h1.2.2.1 hgc1
      have h12 := chainable_trans h1 h2
      have hgc2 : GoodClient (loadBlocksIfNeeded (ensureTreeBuilt d)).client := by
        rw [h12.2.1]; exact hgc
      split
      · have h3 := load_chainable _ h12.2.2.1 hgc2
        have h13 := chainable_trans h12 h3
        have hgc3 : GoodClient
            (loadBlocksIfNeeded (loadBlocksIfNeeded (ensureTreeBuilt d))).client := by
          rw [h13.2.1]; exact hgc
        have h4 := load_chainable _ h13.2.2.1 hgc3
        have h14 := chainable_trans h13 h4
        have hgc4 : GoodClient (loadBlocksIfNeeded (loadBlocksIfNeeded
            (loadBlocksIfNeeded (ensureTreeBuilt d)))).client := by
          rw [h14.2.1]; exact hgc
        have h5 := load_chainable _ h14.2.2.1 hgc4
        have h15 := chainable_trans h14 h5
        exact chainable_trans h15 (chainable_update _ h15.2.2.1 _)
      · exact h12
    · exact h1

theorem runAccesses_chainable (as : List Access) :
    ∀ d : LazyDoc, d.loading_in_progress = false → GoodClient d.client →
      Chainable d (runAccesses d as) := by
  induction as with
  | nil => intro d hlip _; exact chainable_refl d hlip
  | cons a as ih =>
    intro d hlip hgc
    have h1 := applyAccess_chainable a d hlip hgc
    have hgc1 : GoodClient (applyAccess d a).client := by
      rw [h1.2.1]; exact hgc
    exact chainable_trans h1 (ih (applyAccess d a) h1.2.2.1 hgc1)

theorem ensure_loaded (d : LazyDoc) (h : d.blocks_loaded = true) :
    (ensureTreeBuilt d).calls = d.calls ∧
    (ensureTreeBuilt d).blocks_loaded = true := by
  rw [ensureTreeBuilt, load_loaded d h]
  split
  · split
    · exact ⟨rfl, h⟩
    · exact ⟨rfl, h⟩
  · exact ⟨rfl, h⟩

theorem applyAccess_loaded (a : Access) (d : LazyDoc)
    (h : d.blocks_loaded = true) :
    (applyAccess d a).calls = d.calls ∧
    (applyAccess d a).blocks_loaded = true := by
  cases a with
  | getBlocks => rw [applyAccess, load_loaded d h]; exact ⟨rfl, h⟩
  | previewText n =>
    rw [applyAccess, load_loaded d h, load_loaded d h]; exact ⟨rfl, h⟩
  | previewBlocks n =>
    rw [applyAccess, load_loaded d h, load_loaded d h]; exact ⟨rfl, h⟩
  | toMarkdown =>
    obtain ⟨h1, h2⟩ := ensure_loaded d h
    simp only [applyAccess]
    split
    · rw [load_loaded _ h2]
      split
      · rw [load_loaded _ h2, load_loaded _ h2, load_loaded _ h2]
        exact ⟨h1, h2⟩
      · exact ⟨h1, h2⟩
    · exact ⟨h1, h2⟩

theorem runAccesses_loaded (as : List Access) :
    ∀ d : LazyDoc, d.blocks_loaded = true →
      (runAccesses d as).calls = d.calls := by
  induction as with
  | nil => intro d _; rfl
  | cons a as ih =>
    intro d h
    obtain ⟨h1, h2⟩ := applyAccess_loaded a d h
    rw [runAccesses, ih (applyAccess d a) h2, h1]

/-- A concrete lazy document whose client succeeds with an empty block
list. -/
def lzEmptyOk : LazyDoc :=
  { doc := { id := "lz", title := "Lazy" }, client := some (.ok [])
    blocks_loaded := false, tree_loaded := false
    loading_in_progress := false, calls := 0 }

/-- A concrete lazy document whose client raises. -/
def lzErr : LazyDoc :=
  { doc := { id := "lze", title := "LazyErr" }, client := some .err
    blocks_loaded := false, tree_loaded := false
    loading_in_progress := false, calls := 0 }

/-- C3 counterexample: with a client that SUCCEEDS with an empty block list,
`_blocks_loaded` is never set, so `to_markdown()` followed by
`preview_text()` invokes the Provider four times (twice per access), not at
most once. -/
theorem C3_counterexample :
    (runAccesses lzEmptyOk [Access.toMarkdown, Access.previewText 500]).calls = 4 ∧
    ¬ ((runAccesses lzEmptyOk [Access.toMarkdown, Access.previewText 500]).calls ≤ 1) := by
  decide

/-- C3 (amended): for a lazy document whose client either raises or returns a
non-empty block list (or is absent), any sequence of content accesses invokes
the Provider at most once in total; and after blocks are assigned directly,
no subsequent access ever invokes the Provider — but a client that succeeds
with an EMPTY block list is re-invoked on every later access. -/
theorem C3_memoized_loading (as : List Access) (d : LazyDoc)
    (hlip : d.loading_in_progress = false) (hgc : GoodClient d.client) :
    (runAccesses d as).calls ≤ d.calls + 1 ∧
    ∀ xs, (runAccesses (setBlocks d xs) as).calls = d.calls := by
  constructor
  · have h := runAccesses_chainable as d hlip hgc
    have hb : budget d ≤ 1 := by
      rw [budget]
      split_ifs <;> omega
    have h1 := h.1
    omega
  · intro xs
    have h := runAccesses_loaded as (setBlocks d xs) rfl
    rw [h]
    rfl

/-- C3 witness: the amended statement evaluated on the concrete lazy document
whose client raises. -/
theorem C3_memoized_loading_witness :
    (runAccesses lzErr [Access.toMarkdown, Access.previewText 500]).calls ≤
      lzErr.calls + 1 ∧
    ∀ xs, (runAccesses (setBlocks lzErr xs)
        [Access.toMarkdown, Access.previewText 500]).calls = lzErr.calls :=
  C3_memoized_loading [Access.toMarkdown, Access.previewText 500] lzErr rfl
    (by intro bs h; simp [lzErr] at h)

/-- C5: when the Provider raises during `_load_blocks_if_needed`, the
exception is absorbed, `_blocks_loaded` is still set with the blocks left as
they were (possibly empty), and a subsequent load attempt is a no-op (the
Provider is not retried). -/
theorem C5_provider_error_absorbed (d : LazyDoc) (hb : d.blocks_loaded = false)
    (hlip : d.loading_in_progress = false) (hc : d.client = some .err) :
    (loadBlocksIfNeeded d).blocks_loaded = true ∧
    (loadBlocksIfNeeded d).doc.blocks = d.doc.blocks ∧
    (loadBlocksIfNeeded d).calls = d.calls + 1 ∧
    loadBlocksIfNeeded (loadBlocksIfNeeded d) = loadBlocksIfNeeded d := by
  have hstep : loadBlocksIfNeeded d =
      { d with calls := d.calls + 1, blocks_loaded := true } := by
    rw [loadBlocksIfNeeded]
    simp [hb, hlip, hc]
  rw [hstep]
  exact ⟨rfl, rfl, rfl, load_loaded _ rfl⟩

/-- On a non-empty document, `create_window` with a positive limit never
returns an empty block slice, whatever the requested offset. -/
theorem create_window_blocks_ne_nil (w : DocumentWindower) (doc : Document)
    (offset lim : Int) (hl : 1 ≤ lim) (hn : 1 ≤ doc.blocks.length) :
    (w.create_window doc offset (some lim)).blocks ≠ [] := by
  have ho : (w.create_window doc offset (some lim)).offset =
      (if offset < 0 then 0
       else if offset ≥ (doc.blocks.length : Int) then
         max 0 ((doc.blocks.length : Int) - lim)
       else offset) := rfl
  have hb : (w.create_window doc offset (some lim)).blocks =
      pySlice doc.blocks (w.create_window doc offset (some lim)).offset
        (min ((w.create_window doc offset (some lim)).offset + lim)
          (doc.blocks.length : Int)) := rfl
  have hrange : 0 ≤ (w.create_window doc offset (some lim)).offset ∧
      (w.create_window doc offset (some lim)).offset <
        (doc.blocks.length : Int) := by
    rw [ho]
    split_ifs <;> omega
  rw [hb, pySlice]
  simp only
  rw [if_neg (by omega), if_neg (by omega)]
  intro hcon
  rw [List.drop_eq_nil_iff] at hcon
  rw [List.length_take] at hcon
  omega

/-- C10: applying `get_next_window` to a last window (offset + limit >=
total) of a non-empty document returns the window at offset
`max(0, total - limit)`, and next-navigation never yields an empty block
slice. -/
theorem C10_get_next_window (w : DocumentWindower) (doc : Document)
    (cur : DocumentWindow) (hoff : 0 ≤ cur.offset) (hl : 1 ≤ cur.limit)
    (hn : 1 ≤ doc.blocks.length) :
    ((doc.blocks.length : Int) ≤ cur.offset + cur.limit →
      (w.get_next_window cur doc).offset =
        max 0 ((doc.blocks.length : Int) - cur.limit)) ∧
    (w.get_next_window cur doc).blocks ≠ [] := by
  constructor
  · intro hlast
    have h : (w.get_next_window cur doc).offset =
        (if cur.offset + cur.limit < 0 then 0
         else if cur.offset + cur.limit ≥ (doc.blocks.length : Int) then
           max 0 ((doc.blocks.length : Int) - cur.limit)
         else cur.offset + cur.limit) := rfl
    rw [h, if_neg (by omega), if_pos (by omega)]
  · exact create_window_blocks_ne_nil w doc (cur.offset + cur.limit) cur.limit
      hl hn

/-- A concrete last window of the 10-block document (offset 9, limit 3). -/
def cw10 : DocumentWindow :=
  { document_id := "d10", document_title := "Ten", offset := 9, limit := 3
    total_blocks := 10, blocks := [], has_previous := true, has_next := false }

/-- C10 witness: next-navigation from the concrete last window lands at
offset `max(0, 10 - 3) = 7` with a non-empty slice. -/
theorem C10_get_next_window_witness :
    ((cxDoc10.blocks.length : Int) ≤ cw10.offset + cw10.limit →
      (dw1.get_next_window cw10 cxDoc10).offset =
        max 0 ((cxDoc10.blocks.length : Int) - cw10.limit)) ∧
    (dw1.get_next_window cw10 cxDoc10).blocks ≠ [] :=
  C10_get_next_window dw1 cxDoc10 cw10 (by decide) (by decide) (by decide)

/-- C5 witness: the error-absorption statement evaluated on the concrete lazy
document whose client raises. -/
theorem C5_provider_error_absorbed_witness :
    (loadBlocksIfNeeded lzErr).blocks_loaded = true ∧
    (loadBlocksIfNeeded lzErr).doc.blocks = lzErr.doc.blocks ∧
    (loadBlocksIfNeeded lzErr).calls = lzErr.calls + 1 ∧
    loadBlocksIfNeeded (loadBlocksIfNeeded lzErr) = loadBlocksIfNeeded lzErr :=
  C5_provider_error_absorbed lzErr rfl rfl rfl

end DocTreeNLP
